import Mathlib

/-!
Verification of `core/tauri-utils/src/resources.rs`.

Paths are modelled at the level of `std::path::Component` sequences, which is
the granularity at which all of the code under study operates
(`path.components()` loops in `resource_relpath` and `normalize`, line 17 and
line 31 of the source).  A `Component.drive` models `Component::Prefix` (a
Windows drive/volume prefix); the other constructors correspond one to one to
the remaining Rust variants.

`PathBuf::push` semantics are preserved: pushing the root component `"/"`
replaces the whole accumulated path (this is what `dest.push("/")` on line 34
of the source does when `dest` is nonempty), while pushing any relative
component appends it.
-/

namespace Tauri

/-- One `std::path::Component`. -/
inductive Component : Type where
  | drive (s : String)
  | rootDir
  | curDir
  | parentDir
  | normal (s : String)
deriving DecidableEq, Repr

/-- A path, as the sequence of its `std::path` components. -/
abbrev RPath := List Component

/-- One step of the `for` loop of `resource_relpath` (source lines 17-25):
`dest.push(...)` for a single component.  All pushed strings (`"_root_"`,
`"_up_"`, a `Normal` payload) are relative, so the push appends. -/
def relStep (dest : RPath) (c : Component) : RPath :=
  match c with
  | Component.drive _ => dest
  | Component.rootDir => dest ++ [Component.normal "_root_"]
  | Component.curDir => dest
  | Component.parentDir => dest ++ [Component.normal "_up_"]
  | Component.normal s => dest ++ [Component.normal s]

/-- `resource_relpath` (source lines 15-27): fold the component loop over an
initially empty `PathBuf`. -/
def resource_relpath (path : RPath) : RPath :=
  path.foldl relStep []

/-- One step of the `for` loop of `normalize` (source lines 31-39).  Pushing
`"/"` (the `RootDir` arm, line 34) pushes an absolute path, which by
`PathBuf::push` semantics replaces the accumulated path. -/
def normStep (dest : RPath) (c : Component) : RPath :=
  match c with
  | Component.drive _ => dest
  | Component.rootDir => [Component.rootDir]
  | Component.curDir => dest
  | Component.parentDir => dest ++ [Component.parentDir]
  | Component.normal s => dest ++ [Component.normal s]

/-- `normalize` (source lines 29-41). -/
def normalize (path : RPath) : RPath :=
  path.foldl normStep []

/-- The per-component rewriting of `resource_relpath`, read off the `match`
arms on source lines 18-24. -/
def relComp (c : Component) : RPath :=
  match c with
  | Component.drive _ => []
  | Component.rootDir => [Component.normal "_root_"]
  | Component.curDir => []
  | Component.parentDir => [Component.normal "_up_"]
  | Component.normal s => [Component.normal s]

/-- A path all of whose components are `Normal` components. -/
def AllNormal (p : RPath) : Prop :=
  ∀ c ∈ p, ∃ s, c = Component.normal s

/-- Components that `normStep` appends verbatim. -/
def keepComp (c : Component) : Prop :=
  c = Component.parentDir ∨ ∃ s, c = Component.normal s

/-- Shape of any path produced by `normalize`: an optional leading root
followed by only `..` and named components. -/
def NormShape (p : RPath) : Prop :=
  (∀ c ∈ p, keepComp c) ∨
    ∃ body, p = Component.rootDir :: body ∧ ∀ c ∈ body, keepComp c

/-- Does the character list `pat` start the character list `t`? -/
def leadsWith : List Char → List Char → Bool
  | [], _ => true
  | _ :: _, [] => false
  | a :: as, b :: bs => a == b && leadsWith as bs

/-- Does the character list `pat` occur contiguously inside `t`?  Models
Rust's `str::contains(&str)`. -/
def occursIn (pat : List Char) : List Char → Bool
  | [] => pat.isEmpty
  | b :: bs => leadsWith pat (b :: bs) || occursIn pat bs

/-- `haystack.contains(needle)` for strings (Rust `str::contains`). -/
def containsSub (haystack needle : String) : Bool :=
  occursIn needle.data haystack.data

/-- `s.contains(c)` for a single character (Rust `str::contains(char)`):
the character occurs among the characters of the string. -/
def containsChar (s : String) (c : Char) : Bool :=
  s.data.contains c

/-- `external_binaries` (source lines 44-59): for each base name, emit
`"<name>-<triple>"`, with `".exe"` appended when the target triple contains
`"windows"`.  The source's `for`/`push` loop over the input list is a `map`. -/
def external_binaries (bins : List String) (target_triple : String) : List String :=
  bins.map fun curr_path =>
    curr_path ++ "-" ++ target_triple ++
      (if containsSub target_triple "windows" then ".exe" else "")

/-!
The resolver.  Pattern strings are parsed into components with Unix
`std::path` semantics (`Path::new(s).components()`): split on `/`, empty
segments dropped, a leading `/` is a `RootDir`, `..` is a `ParentDir`, `.`
segments are dropped except for a single leading `.` of a relative path.
-/

/-- Split a character list on `/`. -/
def splitOnSlash : List Char → List (List Char)
  | [] => [[]]
  | c :: cs =>
    let r := splitOnSlash cs
    if c = '/' then [] :: r
    else
      match r with
      | [] => [[c]]
      | seg :: rest => (c :: seg) :: rest

/-- A single non-`.` path segment as a component. -/
def parseSeg (s : List Char) : Component :=
  if s = ['.', '.'] then Component.parentDir else Component.normal (String.mk s)

/-- `Path::new(s).components()` on Unix, as a component list. -/
def parsePath (s : String) : RPath :=
  let segs := (splitOnSlash s.data).filter (fun l => l ≠ [])
  let named := (segs.filter (fun l => l ≠ ['.'])).map parseSeg
  match s.data with
  | '/' :: _ => Component.rootDir :: named
  | _ =>
    match segs with
    | [] => []
    | first :: _ => if first = ['.'] then Component.curDir :: named else named

/-- `Path::file_name`: the payload of the last component when it is a
`Normal` component, and `none` otherwise (root, `..`-final or empty paths). -/
def fileName (p : RPath) : Option String :=
  match p.getLast? with
  | some (Component.normal s) => some s
  | _ => none

/-- `Result<A, E>` as the resolver yields it (Rust `crate::Result`). -/
inductive RResult (ε α : Type) : Type where
  | err (e : ε)
  | ok (a : α)
deriving DecidableEq, Repr

/-- The `crate::Error` variants this module can produce: a glob pattern
syntax error (`glob::PatternError`), a glob match error (`glob::GlobError`),
a directory-walk error (`walkdir::Error`) and `Error::NotAllowedToWalkDir`
(source line 178).  Payloads of the external error types are opaque strings. -/
inductive RError : Type where
  | globPattern (e : String)
  | globError (e : String)
  | walkdirError (e : String)
  | notAllowedToWalkDir (p : RPath)
deriving DecidableEq, Repr

/-- `Resource` (source lines 62-66). -/
structure Resource : Type where
  path : RPath
  target : RPath
deriving DecidableEq, Repr

/-- One item of the output sequence of `ResourcePathsIter` (its
`Iterator::Item`, source line 253). -/
abbrev Item := RResult RError Resource

/-- One entry produced by the external `walkdir`/`glob` iterators: an
`io`-level error (opaque string) or a path. -/
abbrev FsEntry := RResult String RPath

/-- The ambient filesystem together with the two external path enumerators
the resolver consults: `Path::is_dir` (source line 175), the entry sequence
of `WalkDir::new(root).into_iter()` (source line 183; `walkdir` yields the
root itself first and then every descendant, directories included, in
depth-first order) and `glob::glob(pattern)` (source line 229; `Except.error`
models `glob::PatternError`, error entries model `glob::GlobError`). -/
structure FS : Type where
  isDir : RPath → Bool
  walkEntries : RPath → List FsEntry
  globMatches : String → Except String (List FsEntry)

/-- The target computation of `next_current_path` (source lines 192-203):
with an override, a non-empty override string is used verbatim
(`PathBuf::from(current_dest)`), an empty override takes the path's file
name when there is one; without an override, `resource_relpath` of the path. -/
def mkTarget (dest : Option String) (path : RPath) : RPath :=
  match dest with
  | some d =>
    if d = "" then
      match fileName path with
      | some f => [Component.normal f]
      | none => parsePath d
    else parsePath d
  | none => resource_relpath path

/-- The `Resource` built by `next_current_path` for a non-directory path
(source lines 191-205). -/
def mkResource (dest : Option String) (path : RPath) : Resource :=
  ⟨path, mkTarget dest path⟩

/-- All items produced while draining one directory walk
(`next_walk_iter`, source lines 156-168, pulled repeatedly by
`Iterator::next`, lines 260-265).  Each entry is normalized and fed to
`next_current_path`; inside a walk `allow_walk` is necessarily `true` and
`walk_iter` is `Some`, so a directory entry creates no new walk and is
skipped (lines 181-189), while a non-directory entry is emitted.  Error
entries are yielded and the walk then continues with the remaining
entries. -/
def walkLoop (fs : FS) (dest : Option String) : List FsEntry → List Item
  | [] => []
  | RResult.err e :: rest =>
    RResult.err (RError.walkdirError e) :: walkLoop fs dest rest
  | RResult.ok p :: rest =>
    let np := normalize p
    if fs.isDir np then walkLoop fs dest rest
    else RResult.ok (mkResource dest np) :: walkLoop fs dest rest

/-- `next_current_path` (source lines 170-208) on one normalized candidate
path, outside of a walk.  `walkUsed` says whether `walk_iter` is already
`Some`: `next_pattern` never resets `walk_iter` (lines 210-212 reset only
`current_dest` and `current_path`), so once a directory has been walked the
exhausted iterator stays in place and `if let None = self.walk_iter`
(line 182) never installs a walk for a later directory, whose candidate path
therefore produces no items.  Returns the items produced and the updated
`walkUsed`. -/
def handleCurrent (fs : FS) (allow_walk : Bool) (dest : Option String)
    (walkUsed : Bool) (path : RPath) : List Item × Bool :=
  if fs.isDir path then
    if !allow_walk then
      ([RResult.err (RError.notAllowedToWalkDir path)], walkUsed)
    else if walkUsed then ([], walkUsed)
    else (walkLoop fs dest (fs.walkEntries path), true)
  else ([RResult.ok (mkResource dest path)], walkUsed)

/-- All items produced while draining one glob result list
(`next_glob_iter`, source lines 142-154, pulled repeatedly by
`Iterator::next`, lines 267-272).  Error entries are yielded and the glob
then continues with the remaining matches; `Ok` matches are normalized and
fed to `next_current_path`. -/
def globLoop (fs : FS) (allow_walk : Bool) (dest : Option String)
    (walkUsed : Bool) : List FsEntry → List Item × Bool
  | [] => ([], walkUsed)
  | RResult.err e :: rest =>
    let r := globLoop fs allow_walk dest walkUsed rest
    (RResult.err (RError.globError e) :: r.1, r.2)
  | RResult.ok p :: rest =>
    let h := handleCurrent fs allow_walk dest walkUsed (normalize p)
    let r := globLoop fs allow_walk dest h.2 rest
    (h.1 ++ r.1, r.2)

/-- All items produced for one pattern (`next_pattern`, source lines
210-241, after the pattern and its destination override have been popped).
A pattern containing `*` is run through `glob::glob`: a syntax error is
yielded as the pattern's only item; an empty match list falls through to the
literal-path branch (lines 239-240); otherwise the matches are drained.
A pattern without `*` is normalized and fed to `next_current_path` once. -/
def processPattern (fs : FS) (allow_walk : Bool) (walkUsed : Bool)
    (pat : String) (dest : Option String) : List Item × Bool :=
  if containsChar pat '*' then
    match fs.globMatches pat with
    | Except.error e => ([RResult.err (RError.globPattern e)], walkUsed)
    | Except.ok [] => handleCurrent fs allow_walk dest walkUsed (normalize (parsePath pat))
    | Except.ok (m :: ms) => globLoop fs allow_walk dest walkUsed (m :: ms)
  else handleCurrent fs allow_walk dest walkUsed (normalize (parsePath pat))

/-- The full output of a `PatternIter::Slice` run: patterns are popped in
list order (source lines 215-218), each with no destination override. -/
def runSlice (fs : FS) (allow_walk : Bool) : Bool → List String → List Item
  | _, [] => []
  | walkUsed, p :: rest =>
    let r := processPattern fs allow_walk walkUsed p none
    r.1 ++ runSlice fs allow_walk r.2 rest

/-- The full output of a `PatternIter::Map` run: entries are popped in the
order the `HashMap` iterator yields them (source lines 219-225), each
installing its destination string as the override. -/
def runMap (fs : FS) (allow_walk : Bool) : Bool → List (String × String) → List Item
  | _, [] => []
  | walkUsed, (p, d) :: rest =>
    let r := processPattern fs allow_walk walkUsed p (some d)
    r.1 ++ runMap fs allow_walk r.2 rest

/-- `ResourcePaths::new(patterns, allow_walk).iter()` fully drained (source
lines 93-104): slice form, all iterator state initially `None`. -/
def resourcePathsNew (fs : FS) (patterns : List String) (allow_walk : Bool) : List Item :=
  runSlice fs allow_walk false patterns

/-- `ResourcePaths::from_map(patterns, allow_walk).iter()` fully drained
(source lines 107-118).  `entries` is the sequence in which the `HashMap`
iterator happens to yield the `(pattern, target)` pairs; `std::collections::
HashMap` leaves that order unspecified, so it is an input of the model. -/
def resourcePathsFromMap (fs : FS) (entries : List (String × String))
    (allow_walk : Bool) : List Item :=
  runMap fs allow_walk false entries

/-!
Concrete filesystems used to evaluate the resolver at specific inputs.
-/

/-- Concrete filesystem with no directories, no walk entries and no glob
matches: every literal pattern is materialized as a plain file entry. -/
def fsFilesOnly : FS := ⟨fun _ => false, fun _ => [], fun _ => Except.ok []⟩

/-- Concrete filesystem with two directories `dirA` and `dirB`, holding the
files `dirA/a.txt` and `dirB/b.txt` respectively.  `walkEntries` follows
`walkdir` conventions: the root directory itself first, then its
descendants. -/
def fsTwoDirs : FS :=
  ⟨fun p => p = [Component.normal "dirA"] ∨ p = [Component.normal "dirB"],
   fun p =>
     if p = [Component.normal "dirA"] then
       [RResult.ok [Component.normal "dirA"],
        RResult.ok [Component.normal "dirA", Component.normal "a.txt"]]
     else if p = [Component.normal "dirB"] then
       [RResult.ok [Component.normal "dirB"],
        RResult.ok [Component.normal "dirB", Component.normal "b.txt"]]
     else [],
   fun _ => Except.ok []⟩

/-- Concrete filesystem whose glob expansion always reports a pattern-syntax
error. -/
def fsBadGlob : FS := ⟨fun _ => false, fun _ => [], fun _ => Except.error "bad"⟩

/-- Concrete filesystem on which the glob `*g` yields a match error first and
then a valid match `f` (a plain file). -/
def fsGlobErr : FS :=
  ⟨fun _ => false, fun _ => [],
   fun p =>
     if p = "*g" then
       Except.ok [RResult.err "boom", RResult.ok [Component.normal "f"]]
     else Except.ok []⟩

/-- The remaining pattern input of `ResourcePathsIter` (`PatternIter`,
source lines 80-84): the not-yet-consumed suffix of the slice iterator, or of
the `HashMap` iterator's yield sequence. -/
inductive PatternIter : Type where
  | slice (pats : List String)
  | mapEntries (entries : List (String × String))

/-- Number of patterns not yet consumed. -/
@[simp] def patsOf : PatternIter → Nat
  | PatternIter.slice l => l.length
  | PatternIter.mapEntries l => l.length

/-- Remaining length of an optional iterator. -/
@[simp] def optLen : Option (List FsEntry) → Nat
  | none => 0
  | some l => l.length

/-- `1` while `walk_iter` is still `None` (a walk can still be installed). -/
@[simp] def flagOf : Option (List FsEntry) → Nat
  | none => 1
  | some _ => 0

/-- `1` while a `current_path` is pending. -/
@[simp] def curOf : Option RPath → Nat
  | none => 0
  | some _ => 1

/-- Everything `ResourcePathsIter::next` (source lines 252-276) yields from a
given iterator state until exhaustion, translated clause by clause:

* `cur` is `current_path`, `dest` is `current_dest`, `wi` is `walk_iter`
  (its not-yet-consumed entries) and `gi` is `glob_iter` (its not-yet-
  consumed results);
* the `some path` branch is `next_current_path` (lines 170-208): a directory
  without walk permission yields `NotAllowedToWalkDir`; a directory with
  permission installs `WalkDir` entries only `if let None = self.walk_iter`
  (line 182); a non-directory yields its `Resource`;
* the `wi = some (e :: rest)` branches are `next_walk_iter` (lines 156-168),
  pulled at line 260;
* the `gi = some (e :: rest)` branches are `next_glob_iter` (lines 142-154),
  pulled at line 267;
* the final block is `next_pattern` (lines 210-241), which resets
  `current_dest` and `current_path` but leaves `walk_iter` and `glob_iter`
  as they are; a `*`-pattern replaces `glob_iter` with its fresh matches
  (popping the first immediately, line 233) unless `glob::glob` fails, and
  otherwise (or when the match list was empty) the pattern itself becomes
  the literal `current_path` (lines 239-240).

Termination: the measure (remaining patterns, remaining glob results,
`walk_iter` still installable, remaining walk entries, pending current path)
decreases lexicographically at every recursive call. -/
def runState (fs : FS) (allow_walk : Bool) (pit : PatternIter)
    (cur : Option RPath) (dest : Option String)
    (wi gi : Option (List FsEntry)) : List Item :=
  match cur with
  | some path =>
    if fs.isDir path then
      if !allow_walk then
        RResult.err (RError.notAllowedToWalkDir path) ::
          runState fs allow_walk pit none dest wi gi
      else
        match wi with
        | none => runState fs allow_walk pit none dest (some (fs.walkEntries path)) gi
        | some l => runState fs allow_walk pit none dest (some l) gi
    else
      RResult.ok (mkResource dest path) :: runState fs allow_walk pit none dest wi gi
  | none =>
    match wi with
    | some (RResult.err e :: rest) =>
      RResult.err (RError.walkdirError e) ::
        runState fs allow_walk pit none dest (some rest) gi
    | some (RResult.ok p :: rest) =>
      runState fs allow_walk pit (some (normalize p)) dest (some rest) gi
    | _ =>
      match gi with
      | some (RResult.err e :: rest) =>
        RResult.err (RError.globError e) ::
          runState fs allow_walk pit none dest wi (some rest)
      | some (RResult.ok p :: rest) =>
        runState fs allow_walk pit (some (normalize p)) dest wi (some rest)
      | _ =>
        match pit with
        | PatternIter.slice [] => []
        | PatternIter.mapEntries [] => []
        | PatternIter.slice (p :: rest) =>
          if containsChar p '*' then
            match fs.globMatches p with
            | Except.error e =>
              RResult.err (RError.globPattern e) ::
                runState fs allow_walk (PatternIter.slice rest) none none wi gi
            | Except.ok [] =>
              runState fs allow_walk (PatternIter.slice rest)
                (some (normalize (parsePath p))) none wi (some [])
            | Except.ok (RResult.err e :: ms) =>
              RResult.err (RError.globError e) ::
                runState fs allow_walk (PatternIter.slice rest) none none wi (some ms)
            | Except.ok (RResult.ok q :: ms) =>
              runState fs allow_walk (PatternIter.slice rest)
                (some (normalize q)) none wi (some ms)
          else
            runState fs allow_walk (PatternIter.slice rest)
              (some (normalize (parsePath p))) none wi gi
        | PatternIter.mapEntries ((p, d) :: rest) =>
          if containsChar p '*' then
            match fs.globMatches p with
            | Except.error e =>
              RResult.err (RError.globPattern e) ::
                runState fs allow_walk (PatternIter.mapEntries rest) none (some d) wi gi
            | Except.ok [] =>
              runState fs allow_walk (PatternIter.mapEntries rest)
                (some (normalize (parsePath p))) (some d) wi (some [])
            | Except.ok (RResult.err e :: ms) =>
              RResult.err (RError.globError e) ::
                runState fs allow_walk (PatternIter.mapEntries rest) none (some d) wi (some ms)
            | Except.ok (RResult.ok q :: ms) =>
              runState fs allow_walk (PatternIter.mapEntries rest)
                (some (normalize q)) (some d) wi (some ms)
          else
            runState fs allow_walk (PatternIter.mapEntries rest)
              (some (normalize (parsePath p))) (some d) wi gi
  termination_by (patsOf pit, optLen gi, flagOf wi, optLen wi, curOf cur)

/-- The `next_pattern` part of `runState`, as a standalone function of the
state that survives a pattern boundary (`walk_iter` and `glob_iter`). -/
def patternStep (fs : FS) (allow_walk : Bool) (pit : PatternIter)
    (wi gi : Option (List FsEntry)) : List Item :=
  match pit with
  | PatternIter.slice [] => []
  | PatternIter.mapEntries [] => []
  | PatternIter.slice (p :: rest) =>
    if containsChar p '*' then
      match fs.globMatches p with
      | Except.error e =>
        RResult.err (RError.globPattern e) ::
          runState fs allow_walk (PatternIter.slice rest) none none wi gi
      | Except.ok [] =>
        runState fs allow_walk (PatternIter.slice rest)
          (some (normalize (parsePath p))) none wi (some [])
      | Except.ok (RResult.err e :: ms) =>
        RResult.err (RError.globError e) ::
          runState fs allow_walk (PatternIter.slice rest) none none wi (some ms)
      | Except.ok (RResult.ok q :: ms) =>
        runState fs allow_walk (PatternIter.slice rest)
          (some (normalize q)) none wi (some ms)
    else
      runState fs allow_walk (PatternIter.slice rest)
        (some (normalize (parsePath p))) none wi gi
  | PatternIter.mapEntries ((p, d) :: rest) =>
    if containsChar p '*' then
      match fs.globMatches p with
      | Except.error e =>
        RResult.err (RError.globPattern e) ::
          runState fs allow_walk (PatternIter.mapEntries rest) none (some d) wi gi
      | Except.ok [] =>
        runState fs allow_walk (PatternIter.mapEntries rest)
          (some (normalize (parsePath p))) (some d) wi (some [])
      | Except.ok (RResult.err e :: ms) =>
        RResult.err (RError.globError e) ::
          runState fs allow_walk (PatternIter.mapEntries rest) none (some d) wi (some ms)
      | Except.ok (RResult.ok q :: ms) =>
        runState fs allow_walk (PatternIter.mapEntries rest)
          (some (normalize q)) (some d) wi (some ms)
    else
      runState fs allow_walk (PatternIter.mapEntries rest)
        (some (normalize (parsePath p))) (some d) wi gi

/-- The `walk_iter` state that corresponds to a `walkUsed` boolean at a point
where any installed walk is exhausted. -/
def wrep : Bool → Option (List FsEntry)
  | true => some []
  | false => none

/-!
Theorems.  First the component-level lemmas about the two normalization
folds, then the fidelity of the structural run functions with respect to the
`runState` state machine, then the claims.
-/

theorem relStep_eq_append (dest : RPath) (c : Component) :
    relStep dest c = dest ++ relComp c := by
  cases c <;> simp [relStep, relComp]

theorem foldl_relStep (p : RPath) (acc : RPath) :
    p.foldl relStep acc = acc ++ p.flatMap relComp := by
  induction p generalizing acc with
  | nil => simp
  | cons c p ih => simp [List.foldl_cons, relStep_eq_append, ih]

theorem relComp_allNormal (c : Component) : AllNormal (relComp c) := by
  cases c <;> simp [relComp, AllNormal]

theorem resource_relpath_allNormal (p : RPath) :
    AllNormal (resource_relpath p) := by
  intro c hc
  rw [resource_relpath, foldl_relStep] at hc
  simp only [List.nil_append, List.mem_flatMap] at hc
  obtain ⟨c0, _, hmem⟩ := hc
  exact relComp_allNormal c0 c hmem

theorem resource_relpath_of_allNormal (p : RPath) (h : AllNormal p) :
    resource_relpath p = p := by
  rw [resource_relpath, foldl_relStep, List.nil_append]
  induction p with
  | nil => rfl
  | cons c p ih =>
    obtain ⟨s, rfl⟩ := h c (by simp)
    simp only [List.flatMap_cons, relComp, List.singleton_append, List.cons.injEq, true_and]
    exact ih fun c0 hc0 => h c0 (by simp [hc0])

theorem normStep_shape (dest : RPath) (c : Component) (h : NormShape dest) :
    NormShape (normStep dest c) := by
  cases c with
  | drive s => exact h
  | rootDir => exact Or.inr ⟨[], rfl, by simp⟩
  | curDir => exact h
  | parentDir =>
    rcases h with h | ⟨body, rfl, hb⟩
    · refine Or.inl fun c hc => ?_
      rcases List.mem_append.mp hc with hc | hc
      · exact h c hc
      · simp only [List.mem_singleton] at hc
        exact hc ▸ Or.inl rfl
    · refine Or.inr ⟨body ++ [Component.parentDir], by simp [normStep], fun c hc => ?_⟩
      rcases List.mem_append.mp hc with hc | hc
      · exact hb c hc
      · simp only [List.mem_singleton] at hc
        exact hc ▸ Or.inl rfl
  | normal s =>
    rcases h with h | ⟨body, rfl, hb⟩
    · refine Or.inl fun c hc => ?_
      rcases List.mem_append.mp hc with hc | hc
      · exact h c hc
      · simp only [List.mem_singleton] at hc
        exact hc ▸ Or.inr ⟨s, rfl⟩
    · refine Or.inr ⟨body ++ [Component.normal s], by simp [normStep], fun c hc => ?_⟩
      rcases List.mem_append.mp hc with hc | hc
      · exact hb c hc
      · simp only [List.mem_singleton] at hc
        exact hc ▸ Or.inr ⟨s, rfl⟩

theorem foldl_normStep_shape (p : RPath) (acc : RPath) (h : NormShape acc) :
    NormShape (p.foldl normStep acc) := by
  induction p generalizing acc with
  | nil => exact h
  | cons c p ih => exact ih _ (normStep_shape acc c h)

theorem normalize_shape (p : RPath) : NormShape (normalize p) :=
  foldl_normStep_shape p [] (Or.inl (by simp))

theorem foldl_normStep_keep (p : RPath) (acc : RPath) (h : ∀ c ∈ p, keepComp c) :
    p.foldl normStep acc = acc ++ p := by
  induction p generalizing acc with
  | nil => simp
  | cons c p ih =>
    have hc : keepComp c := h c (by simp)
    have hp : ∀ c0 ∈ p, keepComp c0 := fun c0 hc0 => h c0 (by simp [hc0])
    rcases hc with rfl | ⟨s, rfl⟩ <;> simp [normStep, ih _ hp]

theorem normalize_of_shape (p : RPath) (h : NormShape p) : normalize p = p := by
  rcases h with h | ⟨body, rfl, hb⟩
  · exact foldl_normStep_keep p [] h
  · show (Component.rootDir :: body).foldl normStep [] = _
    rw [List.foldl_cons]
    exact foldl_normStep_keep body _ hb

theorem runState_walk (fs : FS) (pit : PatternIter) (dest : Option String)
    (gi : Option (List FsEntry)) (l : List FsEntry) :
    runState fs true pit none dest (some l) gi =
      walkLoop fs dest l ++ runState fs true pit none dest (some []) gi := by
  induction l with
  | nil => simp [walkLoop]
  | cons e rest ih =>
    cases e with
    | err e0 =>
      rw [runState]
      simp only [walkLoop, List.cons_append]
      rw [ih]
    | ok p =>
      rw [runState]
      simp only [walkLoop]
      by_cases hd : fs.isDir (normalize p)
      · rw [runState]
        simp [hd, ih]
      · rw [runState]
        simp [hd, ih, List.cons_append]

theorem runState_cur (fs : FS) (aw : Bool) (pit : PatternIter) (p : RPath)
    (dest : Option String) (w : Bool) (gi : Option (List FsEntry)) :
    runState fs aw pit (some p) dest (wrep w) gi =
      (handleCurrent fs aw dest w p).1 ++
        runState fs aw pit none dest (wrep (handleCurrent fs aw dest w p).2) gi := by
  rw [runState.eq_def]
  by_cases hd : fs.isDir p
  · cases aw with
    | false => simp [hd, handleCurrent]
    | true =>
      cases w with
      | false =>
        simp only [hd, if_true, Bool.not_true, Bool.false_eq_true, if_false, wrep]
        rw [runState_walk]
        simp [handleCurrent, hd, wrep]
      | true =>
        simp [hd, handleCurrent, wrep]
  · simp [hd, handleCurrent, wrep]

theorem runState_glob_pop_err (fs : FS) (aw : Bool) (pit : PatternIter)
    (d0 : Option String) (w : Bool) (e : String) (rest : List FsEntry) :
    runState fs aw pit none d0 (wrep w) (some (RResult.err e :: rest)) =
      RResult.err (RError.globError e) ::
        runState fs aw pit none d0 (wrep w) (some rest) := by
  cases w <;> (rw [runState.eq_def]; rfl)

theorem runState_glob_pop_ok (fs : FS) (aw : Bool) (pit : PatternIter)
    (d0 : Option String) (w : Bool) (p : RPath) (rest : List FsEntry) :
    runState fs aw pit none d0 (wrep w) (some (RResult.ok p :: rest)) =
      runState fs aw pit (some (normalize p)) d0 (wrep w) (some rest) := by
  cases w <;> (rw [runState.eq_def]; rfl)

theorem runState_glob (fs : FS) (aw : Bool) (pit : PatternIter)
    (dest : Option String) (l : List FsEntry) (w : Bool) :
    runState fs aw pit none dest (wrep w) (some l) =
      (globLoop fs aw dest w l).1 ++
        runState fs aw pit none dest (wrep (globLoop fs aw dest w l).2) (some []) := by
  induction l generalizing w with
  | nil => simp [globLoop]
  | cons e rest ih =>
    cases e with
    | err e0 =>
      rw [runState_glob_pop_err, ih]
      simp [globLoop]
    | ok p =>
      rw [runState_glob_pop_ok, runState_cur, ih]
      simp [globLoop, List.append_assoc]

theorem runState_boundary (fs : FS) (aw : Bool) (pit : PatternIter)
    (d0 : Option String) (w : Bool) (gi : Option (List FsEntry))
    (hg : gi = none ∨ gi = some []) :
    runState fs aw pit none d0 (wrep w) gi = patternStep fs aw pit (wrep w) gi := by
  rcases hg with rfl | rfl <;> cases w <;> (rw [runState.eq_def]; rfl)

theorem runState_slice (fs : FS) (aw : Bool) (pats : List String) (w : Bool)
    (d0 : Option String) (gi : Option (List FsEntry))
    (hg : gi = none ∨ gi = some []) :
    runState fs aw (PatternIter.slice pats) none d0 (wrep w) gi =
      runSlice fs aw w pats := by
  induction pats generalizing w d0 gi with
  | nil =>
    rw [runState_boundary fs aw _ d0 w gi hg]
    rfl
  | cons p rest ih =>
    rw [runState_boundary fs aw _ d0 w gi hg]
    show patternStep fs aw (PatternIter.slice (p :: rest)) (wrep w) gi = _
    rw [patternStep]
    by_cases hstar : containsChar p '*'
    · simp only [hstar, if_true]
      cases hglob : fs.globMatches p with
      | error e =>
        show RResult.err (RError.globPattern e) ::
            runState fs aw (PatternIter.slice rest) none none (wrep w) gi =
          runSlice fs aw w (p :: rest)
        rw [ih w none gi hg]
        simp [runSlice, processPattern, hstar, hglob]
      | ok ms =>
        cases ms with
        | nil =>
          show runState fs aw (PatternIter.slice rest)
              (some (normalize (parsePath p))) none (wrep w) (some []) =
            runSlice fs aw w (p :: rest)
          rw [runState_cur, ih _ none _ (Or.inr rfl)]
          simp [runSlice, processPattern, hstar, hglob]
        | cons m ms0 =>
          cases m with
          | err e0 =>
            show RResult.err (RError.globError e0) ::
                runState fs aw (PatternIter.slice rest) none none (wrep w) (some ms0) =
              runSlice fs aw w (p :: rest)
            rw [runState_glob, ih _ none _ (Or.inr rfl)]
            simp [runSlice, processPattern, hstar, hglob, globLoop]
          | ok q =>
            show runState fs aw (PatternIter.slice rest)
                (some (normalize q)) none (wrep w) (some ms0) =
              runSlice fs aw w (p :: rest)
            rw [runState_cur, runState_glob, ih _ none _ (Or.inr rfl)]
            simp [runSlice, processPattern, hstar, hglob, globLoop, List.append_assoc]
    · simp only [hstar, if_false]
      show runState fs aw (PatternIter.slice rest)
          (some (normalize (parsePath p))) none (wrep w) gi =
        runSlice fs aw w (p :: rest)
      rw [runState_cur, ih _ none _ hg]
      simp [runSlice, processPattern, hstar]

theorem runState_mapEntries (fs : FS) (aw : Bool)
    (entries : List (String × String)) (w : Bool)
    (d0 : Option String) (gi : Option (List FsEntry))
    (hg : gi = none ∨ gi = some []) :
    runState fs aw (PatternIter.mapEntries entries) none d0 (wrep w) gi =
      runMap fs aw w entries := by
  induction entries generalizing w d0 gi with
  | nil =>
    rw [runState_boundary fs aw _ d0 w gi hg]
    rfl
  | cons e0 rest ih =>
    rw [runState_boundary fs aw _ d0 w gi hg]
    obtain ⟨p, d⟩ := e0
    show patternStep fs aw (PatternIter.mapEntries ((p, d) :: rest)) (wrep w) gi = _
    rw [patternStep]
    by_cases hstar : containsChar p '*'
    · simp only [hstar, if_true]
      cases hglob : fs.globMatches p with
      | error e =>
        show RResult.err (RError.globPattern e) ::
            runState fs aw (PatternIter.mapEntries rest) none (some d) (wrep w) gi =
          runMap fs aw w ((p, d) :: rest)
        rw [ih w (some d) gi hg]
        simp [runMap, processPattern, hstar, hglob]
      | ok ms =>
        cases ms with
        | nil =>
          show runState fs aw (PatternIter.mapEntries rest)
              (some (normalize (parsePath p))) (some d) (wrep w) (some []) =
            runMap fs aw w ((p, d) :: rest)
          rw [runState_cur, ih _ (some d) _ (Or.inr rfl)]
          simp [runMap, processPattern, hstar, hglob]
        | cons m ms0 =>
          cases m with
          | err e1 =>
            show RResult.err (RError.globError e1) ::
                runState fs aw (PatternIter.mapEntries rest) none (some d) (wrep w) (some ms0) =
              runMap fs aw w ((p, d) :: rest)
            rw [runState_glob, ih _ (some d) _ (Or.inr rfl)]
            simp [runMap, processPattern, hstar, hglob, globLoop]
          | ok q =>
            show runState fs aw (PatternIter.mapEntries rest)
                (some (normalize q)) (some d) (wrep w) (some ms0) =
              runMap fs aw w ((p, d) :: rest)
            rw [runState_cur, runState_glob, ih _ (some d) _ (Or.inr rfl)]
            simp [runMap, processPattern, hstar, hglob, globLoop, List.append_assoc]
    · simp only [hstar, if_false]
      show runState fs aw (PatternIter.mapEntries rest)
          (some (normalize (parsePath p))) (some d) (wrep w) gi =
        runMap fs aw w ((p, d) :: rest)
      rw [runState_cur, ih _ (some d) _ hg]
      simp [runMap, processPattern, hstar]

/-- Fidelity of the structural semantics: draining the state machine of
`ResourcePathsIter` from the initial state that `ResourcePaths::new` builds
(source lines 93-104: slice patterns, everything else `None`) produces
exactly `resourcePathsNew`. -/
theorem runState_eq_resourcePathsNew (fs : FS) (pats : List String) (aw : Bool) :
    runState fs aw (PatternIter.slice pats) none none none none =
      resourcePathsNew fs pats aw :=
  runState_slice fs aw pats false none none (Or.inl rfl)

/-- Fidelity of the structural semantics: draining the state machine from the
initial state that `ResourcePaths::from_map` builds (source lines 107-118)
produces exactly `resourcePathsFromMap`. -/
theorem runState_eq_resourcePathsFromMap (fs : FS)
    (entries : List (String × String)) (aw : Bool) :
    runState fs aw (PatternIter.mapEntries entries) none none none none =
      resourcePathsFromMap fs entries aw :=
  runState_mapEntries fs aw entries false none none (Or.inl rfl)

/-!
Provenance of successful items: every `Ok` resource a run yields was built by
`mkResource` from the destination override of its pattern.
-/

theorem walkLoop_ok_mem (fs : FS) (dest : Option String) (l : List FsEntry)
    (r : Resource) (h : RResult.ok r ∈ walkLoop fs dest l) :
    ∃ q, r = mkResource dest q := by
  induction l with
  | nil => simp [walkLoop] at h
  | cons e rest ih =>
    cases e with
    | err e0 =>
      simp only [walkLoop, List.mem_cons] at h
      rcases h with h | h
      · exact absurd h (by simp)
      · exact ih h
    | ok p =>
      simp only [walkLoop] at h
      by_cases hd : fs.isDir (normalize p)
      · rw [if_pos hd] at h
        exact ih h
      · rw [if_neg hd] at h
        rcases List.mem_cons.mp h with h | h
        · exact ⟨normalize p, by simpa using h⟩
        · exact ih h

theorem handleCurrent_ok_mem (fs : FS) (aw : Bool) (dest : Option String)
    (w : Bool) (p : RPath) (r : Resource)
    (h : RResult.ok r ∈ (handleCurrent fs aw dest w p).1) :
    ∃ q, r = mkResource dest q := by
  unfold handleCurrent at h
  by_cases hd : fs.isDir p
  · rw [if_pos hd] at h
    cases aw with
    | false => simp at h
    | true =>
      cases w with
      | false =>
        simp only [Bool.not_true, Bool.false_eq_true, if_false, if_neg] at h
        exact walkLoop_ok_mem fs dest _ r (by simpa using h)
      | true => simp at h
  · rw [if_neg hd] at h
    simp only [List.mem_singleton] at h
    exact ⟨p, by simpa using h⟩

theorem globLoop_ok_mem (fs : FS) (aw : Bool) (dest : Option String)
    (l : List FsEntry) (w : Bool) (r : Resource)
    (h : RResult.ok r ∈ (globLoop fs aw dest w l).1) :
    ∃ q, r = mkResource dest q := by
  induction l generalizing w with
  | nil => simp [globLoop] at h
  | cons e rest ih =>
    cases e with
    | err e0 =>
      simp only [globLoop, List.mem_cons] at h
      rcases h with h | h
      · exact absurd h (by simp)
      · exact ih _ h
    | ok p =>
      simp only [globLoop, List.mem_append] at h
      rcases h with h | h
      · exact handleCurrent_ok_mem fs aw dest w (normalize p) r h
      · exact ih _ h

theorem processPattern_ok_mem (fs : FS) (aw w : Bool) (pat : String)
    (dest : Option String) (r : Resource)
    (h : RResult.ok r ∈ (processPattern fs aw w pat dest).1) :
    ∃ q, r = mkResource dest q := by
  unfold processPattern at h
  by_cases hstar : containsChar pat '*'
  · rw [if_pos hstar] at h
    cases hg : fs.globMatches pat with
    | error e => rw [hg] at h; simp at h
    | ok ms =>
      rw [hg] at h
      cases ms with
      | nil => exact handleCurrent_ok_mem fs aw dest w _ r h
      | cons m ms0 => exact globLoop_ok_mem fs aw dest _ w r h
  · rw [if_neg hstar] at h
    exact handleCurrent_ok_mem fs aw dest w _ r h

theorem runSlice_ok_mem (fs : FS) (aw : Bool) (pats : List String) (w : Bool)
    (r : Resource) (h : RResult.ok r ∈ runSlice fs aw w pats) :
    ∃ q, r = mkResource none q := by
  induction pats generalizing w with
  | nil => simp [runSlice] at h
  | cons p rest ih =>
    simp only [runSlice, List.mem_append] at h
    rcases h with h | h
    · exact processPattern_ok_mem fs aw w p none r h
    · exact ih _ h

theorem runMap_ok_mem (fs : FS) (aw : Bool) (entries : List (String × String))
    (w : Bool) (r : Resource) (h : RResult.ok r ∈ runMap fs aw w entries) :
    ∃ e ∈ entries, ∃ q, r = mkResource (some e.2) q := by
  induction entries generalizing w with
  | nil => simp [runMap] at h
  | cons e0 rest ih =>
    simp only [runMap, List.mem_append] at h
    rcases h with h | h
    · exact ⟨e0, by simp, processPattern_ok_mem fs aw w e0.1 (some e0.2) r h⟩
    · obtain ⟨e1, he1, hq⟩ := ih _ h
      exact ⟨e1, by simp [he1], hq⟩

theorem mkTarget_none_allNormal (p : RPath) : AllNormal (mkTarget none p) :=
  resource_relpath_allNormal p

theorem mkTarget_emptyDest_allNormal (p : RPath) :
    AllNormal (mkTarget (some "") p) := by
  unfold mkTarget
  cases hf : fileName p with
  | some f => simp [AllNormal]
  | none =>
    have : parsePath "" = [] := by decide
    simp [this, AllNormal]

/-- Counterexample to claim C2 as stated: in a map-form pass, the pattern
`"f"` (a plain file) with the non-empty destination override `"../x"` yields
a `Resource` whose target is `../x` — used verbatim, it contains a raw `..`
component, so not every successfully yielded target is free of
normalized-away components. -/
theorem c2_counterexample_override_escapes :
    resourcePathsFromMap fsFilesOnly [("f", "../x")] true =
        [RResult.ok ⟨[Component.normal "f"],
                     [Component.parentDir, Component.normal "x"]⟩] ∧
      Component.parentDir ∈
        (mkResource (some "../x") [Component.normal "f"]).target := by
  constructor
  · decide
  · decide

/-- Claim C2, amended: for every resolution pass and every successfully
yielded `Resource`, the target is a relative path with no `.` component, no
raw `..` component and no drive or root prefix — all its components are
named components — PROVIDED the target was not taken from a non-empty
destination override: this covers every slice-form pass (no overrides exist)
and every map-form pass all of whose destination overrides are the empty
string.  A non-empty override is used verbatim and can carry any
component. -/
theorem c2_amended_targets_all_normal (fs : FS) (aw w : Bool)
    (pats : List String) (entries : List (String × String))
    (hE : ∀ e ∈ entries, e.2 = "") :
    (∀ r : Resource, RResult.ok r ∈ runSlice fs aw w pats → AllNormal r.target) ∧
      (∀ r : Resource, RResult.ok r ∈ runMap fs aw w entries → AllNormal r.target) := by
  constructor
  · intro r h
    obtain ⟨q, rfl⟩ := runSlice_ok_mem fs aw pats w r h
    exact mkTarget_none_allNormal q
  · intro r h
    obtain ⟨e, he, q, rfl⟩ := runMap_ok_mem fs aw entries w r h
    have h2 := hE e he
    rw [show mkResource (some e.2) q = mkResource (some "") q by rw [h2]]
    exact mkTarget_emptyDest_allNormal q

/-- Witness for C2's amended theorem at a concrete input: the single
resource yielded for the slice `["f"]` over `fsFilesOnly` has the all-normal
target `f`. -/
theorem c2_amended_witness :
    ∃ s, Component.normal "f" = Component.normal s :=
  (c2_amended_targets_all_normal fsFilesOnly true false ["f"] []
      (by simp)).1
    ⟨[Component.normal "f"], [Component.normal "f"]⟩ (by decide)
    (Component.normal "f") (by decide)

/-- Claim C3 evaluated at the failing input: over `fsTwoDirs`, the slice pass
`["dirA", "dirB"]` with walk permission yields only `dirA/a.txt`.  The first
directory pattern is fully expanded, but `next_pattern` never resets
`walk_iter`, so `dirB` finds the exhausted walk iterator of `dirA` still in
place, installs no walk of its own, and silently produces nothing — `b.txt`
is never emitted, contradicting the spec's requirement that every directory
pattern be fully expanded. -/
theorem c3_second_directory_pattern_skipped :
    resourcePathsNew fsTwoDirs ["dirA", "dirB"] true =
      [RResult.ok ⟨[Component.normal "dirA", Component.normal "a.txt"],
                   [Component.normal "dirA", Component.normal "a.txt"]⟩] := by
  decide

/-- Counterexample to claim C4 as stated: the map form iterates a
`std::collections::HashMap`, whose iteration order is unspecified and is an
input of the model.  For a map with entries inserted as
`[("a", "ta"), ("b", "tb")]`, a hash iteration order yielding `("b", "tb")`
first processes `b` before `a`: the output differs from the insertion-order
run, so entries are not iterated in insertion order. -/
theorem c4_counterexample_hash_order :
    resourcePathsFromMap fsFilesOnly [("b", "tb"), ("a", "ta")] true =
        [RResult.ok ⟨[Component.normal "b"], [Component.normal "tb"]⟩,
         RResult.ok ⟨[Component.normal "a"], [Component.normal "ta"]⟩] ∧
      resourcePathsFromMap fsFilesOnly [("b", "tb"), ("a", "ta")] true ≠
        resourcePathsFromMap fsFilesOnly [("a", "ta"), ("b", "tb")] true := by
  constructor
  · decide
  · decide

/-- Claim C4, amended: map-form entries are processed in the order in which
the `HashMap` iterator yields them — which is unspecified and need not be
insertion order: all items of the first yielded entry precede everything
produced from the remaining entries. -/
theorem c4_amended_map_follows_iterator_order (fs : FS) (aw w : Bool)
    (p d : String) (rest : List (String × String)) :
    runMap fs aw w ((p, d) :: rest) =
      (processPattern fs aw w p (some d)).1 ++
        runMap fs aw (processPattern fs aw w p (some d)).2 rest := rfl

/-- Claim C5: the target of every non-directory entry is the destination
override verbatim when present and non-empty; the entry's bare file name
when the override is present, empty, and the path has a file name; and
`resource_relpath` of the normalized source path when no override is
present.  Moreover every file discovered by a directory walk under a
non-empty override `T` gets target exactly `T`. -/
theorem c5_target_computation (fs : FS) :
    (∀ (d : String) (p : RPath), d ≠ "" → mkTarget (some d) p = parsePath d) ∧
      (∀ (p : RPath) (f : String), fileName p = some f →
        mkTarget (some "") p = [Component.normal f]) ∧
      (∀ p : RPath, mkTarget none p = resource_relpath p) ∧
      (∀ (T : String) (entries : List FsEntry) (r : Resource), T ≠ "" →
        RResult.ok r ∈ walkLoop fs (some T) entries → r.target = parsePath T) := by
  refine ⟨fun d p hd => ?_, fun p f hf => ?_, fun p => rfl, fun T entries r hT hmem => ?_⟩
  · simp [mkTarget, hd]
  · simp [mkTarget, hf]
  · obtain ⟨q, rfl⟩ := walkLoop_ok_mem fs (some T) entries r hmem
    simp [mkResource, mkTarget, hT]

/-- Witness for C5 at concrete inputs: a non-empty override is used verbatim,
an empty override takes the bare file name, no override takes
`resource_relpath`, and the file `dirA/a.txt` discovered by walking `dirA`
under override `"T"` gets target `T`. -/
theorem c5_witness :
    mkTarget (some "frontend/index.html") [Component.normal "a"] =
        parsePath "frontend/index.html" ∧
      mkTarget (some "") [Component.normal "src", Component.normal "b.txt"] =
        [Component.normal "b.txt"] ∧
      mkTarget none [Component.parentDir] = resource_relpath [Component.parentDir] ∧
      (mkResource (some "T")
          [Component.normal "dirA", Component.normal "a.txt"]).target =
        parsePath "T" :=
  ⟨(c5_target_computation fsFilesOnly).1 "frontend/index.html"
      [Component.normal "a"] (by decide),
   (c5_target_computation fsFilesOnly).2.1
      [Component.normal "src", Component.normal "b.txt"] "b.txt" (by decide),
   (c5_target_computation fsFilesOnly).2.2.1 [Component.parentDir],
   (c5_target_computation fsTwoDirs).2.2.2 "T"
      (fsTwoDirs.walkEntries [Component.normal "dirA"])
      (mkResource (some "T") [Component.normal "dirA", Component.normal "a.txt"])
      (by decide) (by decide)⟩

/-- Claim C6: with walk permission `false`, a literal pattern that denotes a
directory yields exactly one `NotAllowedToWalkDir` error identifying that
path and no file entries, and resolution proceeds with the remaining
patterns — in both the slice form and the map form. -/
theorem c6_dir_without_walk_permission (fs : FS) (w : Bool) (p : String)
    (rest : List String) (entries : List (String × String)) (d : String)
    (hstar : containsChar p '*' = false)
    (hdir : fs.isDir (normalize (parsePath p)) = true) :
    runSlice fs false w (p :: rest) =
        RResult.err (RError.notAllowedToWalkDir (normalize (parsePath p))) ::
          runSlice fs false w rest ∧
      runMap fs false w ((p, d) :: entries) =
        RResult.err (RError.notAllowedToWalkDir (normalize (parsePath p))) ::
          runMap fs false w entries := by
  constructor
  · simp [runSlice, processPattern, hstar, handleCurrent, hdir]
  · simp [runMap, processPattern, hstar, handleCurrent, hdir]

/-- Witness for C6 at a concrete input: over `fsTwoDirs`, the pass
`["dirA", "x"]` without walk permission yields the error for `dirA` followed
by the run of the remaining patterns. -/
theorem c6_witness :
    runSlice fsTwoDirs false false ["dirA", "x"] =
        RResult.err (RError.notAllowedToWalkDir [Component.normal "dirA"]) ::
          runSlice fsTwoDirs false false ["x"] ∧
      runMap fsTwoDirs false false [("dirA", "t"), ("x", "u")] =
        RResult.err (RError.notAllowedToWalkDir [Component.normal "dirA"]) ::
          runMap fsTwoDirs false false [("x", "u")] := by
  have h := c6_dir_without_walk_permission fsTwoDirs false "dirA" ["x"]
    [("x", "u")] "t" (by decide) (by decide)
  simpa using h

/-- Counterexample to claim C7 as stated: over `fsGlobErr`, the single glob
pattern `*g` yields a glob-match error and then a further successful entry
from the same pattern — the resolver continues the current pattern after
yielding an error item, contrary to "produces no further entries from the
current pattern". -/
theorem c7_counterexample_continues_after_error :
    resourcePathsNew fsGlobErr ["*g"] true =
      [RResult.err (RError.globError "boom"),
       RResult.ok ⟨[Component.normal "f"], [Component.normal "f"]⟩] := by
  decide

/-- Claim C7, amended: every error (glob syntax, glob match, walk) is yielded
as one item of the output sequence, preserving all previously yielded
entries; a glob-syntax error abandons its pattern entirely and resolution
proceeds with the next pattern, but after yielding a glob-match error or a
walk error the resolver continues with the remaining matches/entries of the
current pattern. -/
theorem c7_amended_error_propagation (fs : FS) (aw w : Bool) (p : String)
    (rest : List String) (e e2 : String) (dest : Option String)
    (l : List FsEntry)
    (hstar : containsChar p '*' = true)
    (hsyn : fs.globMatches p = Except.error e) :
    runSlice fs aw w (p :: rest) =
        RResult.err (RError.globPattern e) :: runSlice fs aw w rest ∧
      walkLoop fs dest (RResult.err e2 :: l) =
        RResult.err (RError.walkdirError e2) :: walkLoop fs dest l ∧
      (globLoop fs aw dest w (RResult.err e2 :: l)).1 =
        RResult.err (RError.globError e2) :: (globLoop fs aw dest w l).1 := by
  refine ⟨?_, rfl, rfl⟩
  simp [runSlice, processPattern, hstar, hsyn]

/-- Witness for C7's amended theorem at a concrete input: over `fsBadGlob`
the glob pattern `*b` yields its syntax error as a single item and the pass
continues with the next pattern, and error entries of a walk or a glob are
yielded in place with the loop continuing behind them. -/
theorem c7_amended_witness :
    runSlice fsBadGlob true false ["*b", "x"] =
        RResult.err (RError.globPattern "bad") ::
          runSlice fsBadGlob true false ["x"] ∧
      walkLoop fsBadGlob none [RResult.err "oops"] =
        RResult.err (RError.walkdirError "oops") :: walkLoop fsBadGlob none [] ∧
      (globLoop fsBadGlob true none false [RResult.err "oops"]).1 =
        RResult.err (RError.globError "oops") ::
          (globLoop fsBadGlob true none false []).1 :=
  c7_amended_error_propagation fsBadGlob true false "*b" ["x"] "bad" "oops"
    none [] (by decide) rfl

/-- Claim C10: a pattern is treated as a glob exactly when it contains `*`
(a pattern with other glob metacharacters such as `?` or `[` but no `*` is
treated as a literal path), and a `*`-pattern whose glob expansion yields no
entries falls through: the pattern string itself is normalized and fed to
the entry materializer as a literal path. -/
theorem c10_star_classification (fs : FS) (aw w : Bool) (dest : Option String)
    (p : String) :
    (containsChar p '*' = false →
        processPattern fs aw w p dest =
          handleCurrent fs aw dest w (normalize (parsePath p))) ∧
      (containsChar p '*' = true → fs.globMatches p = Except.ok [] →
        processPattern fs aw w p dest =
          handleCurrent fs aw dest w (normalize (parsePath p))) ∧
      (∀ m ms, containsChar p '*' = true →
        fs.globMatches p = Except.ok (m :: ms) →
        processPattern fs aw w p dest = globLoop fs aw dest w (m :: ms)) ∧
      containsChar "file?.t[x]t" '*' = false ∧
      containsChar "*.toml" '*' = true := by
  refine ⟨fun hs => ?_, fun hs hg => ?_, fun m ms hs hg => ?_, by decide, by decide⟩
  · simp [processPattern, hs]
  · simp [processPattern, hs, hg]
  · simp [processPattern, hs, hg]

/-- Witness for C10 at concrete inputs: `x` is a literal pattern; over
`fsFilesOnly` the glob `*z` matches nothing and falls through to the literal
path `*z`; over `fsGlobErr` the glob `*g` has matches and is drained by the
glob loop. -/
theorem c10_witness :
    processPattern fsFilesOnly true false "x" none =
        handleCurrent fsFilesOnly true none false (normalize (parsePath "x")) ∧
      processPattern fsFilesOnly true false "*z" none =
        handleCurrent fsFilesOnly true none false (normalize (parsePath "*z")) ∧
      processPattern fsGlobErr true false "*g" none =
        globLoop fsGlobErr true none false
          [RResult.err "boom", RResult.ok [Component.normal "f"]] :=
  ⟨(c10_star_classification fsFilesOnly true false none "x").1 (by decide),
   (c10_star_classification fsFilesOnly true false none "*z").2.1 (by decide) rfl,
   (c10_star_classification fsGlobErr true false none "*g").2.2.1
      (RResult.err "boom") [RResult.ok [Component.normal "f"]] (by decide) rfl⟩

/-- Claim C1: `resource_relpath` builds its output component by component, in
order: drive/volume prefixes are dropped, each root component becomes exactly
one `_root_` segment, each `.` component is dropped, each `..` component
becomes exactly one `_up_` segment, and ordinary named components are copied
unchanged in their original order. -/
theorem c1_resource_relpath_componentwise (p : RPath) :
    resource_relpath p =
      p.flatMap fun c =>
        match c with
        | Component.drive _ => []
        | Component.rootDir => [Component.normal "_root_"]
        | Component.curDir => []
        | Component.parentDir => [Component.normal "_up_"]
        | Component.normal s => [Component.normal s] := by
  rw [resource_relpath, foldl_relStep, List.nil_append]
  rfl

/-- Claim C9: both normalization operations are idempotent: for every
component sequence `p`, `normalize (normalize p) = normalize p` and
`resource_relpath (resource_relpath p) = resource_relpath p`. -/
theorem c9_normalization_idempotent (p : RPath) :
    normalize (normalize p) = normalize p ∧
      resource_relpath (resource_relpath p) = resource_relpath p :=
  ⟨normalize_of_shape _ (normalize_shape p),
   resource_relpath_of_allNormal _ (resource_relpath_allNormal p)⟩

/-- Claim C8: `external_binaries` returns a list of the same length and order
whose i-th element is `"<name_i>-<triple>"` with `".exe"` appended exactly
when the triple denotes a Windows target (the triple contains `"windows"`);
in particular `"app"` with `"x86_64-pc-windows-msvc"` yields
`"app-x86_64-pc-windows-msvc.exe"` and a non-Windows triple yields no
`".exe"` suffix. -/
theorem c8_external_binaries (bins : List String) (triple : String) :
    (external_binaries bins triple).length = bins.length ∧
      (∀ i : Nat,
        (external_binaries bins triple)[i]? =
          bins[i]?.map fun name =>
            name ++ "-" ++ triple ++
              (if containsSub triple "windows" then ".exe" else "")) ∧
      external_binaries ["app"] "x86_64-pc-windows-msvc" =
        ["app-x86_64-pc-windows-msvc.exe"] ∧
      external_binaries ["app"] "x86_64-apple-darwin" =
        ["app-x86_64-apple-darwin"] := by
  refine ⟨by simp [external_binaries], fun i => ?_, by decide, by decide⟩
  simp [external_binaries, List.getElem?_map]

end Tauri
